/-
Verification of the STIR feature-selection filter
(ITMO_FS/filters/multivariate/STIR.py).

The feature matrix is a list of rows (samples) of rationals; labels are
integers (only equality between labels is ever used by the algorithm).
Machine floats are idealised as exact rationals.  Python exceptions are
modelled by `Except PyErr`.

One deliberate deviation, local and order-preserving: `pairwise_distances`
computes the Euclidean metric sqrt(Σ (xi - yi)^2).  The distance matrix is
only ever consumed through `np.argsort` (order comparisons) and through the
implicit "distance zero" tie with self, and `sqrt` is strictly monotone on
the nonnegative reals, so entries here are the SQUARED Euclidean distances:
the induced sort order, every tie, and every zero test coincide with the
source's.  All other definitions follow the Python line by line.
-/
import Mathlib

namespace STIRModel

/-- A numeric matrix: list of sample rows. -/
abbrev Mat := List (List ℚ)

/-- Python exceptions that `STIR`'s code paths can raise. -/
inductive PyErr where
  /-- `ValueError: zero-size array to reduction operation` from `np.max`
      / `np.min` on an empty axis. -/
  | zeroSizeReduction
  /-- `ValueError` from `np.column_stack` on input lists of unequal
      lengths. -/
  | stackMismatch
  /-- `AttributeError` on reading an attribute that was never assigned. -/
  | attributeError (attr : String)
deriving DecidableEq, Repr

/-- `X.shape[0]`: number of samples. -/
def nSamples (X : Mat) : ℕ := X.length

/-- `X.shape[1]`: number of features (input is rectangular after
    validation, so the head row's length is the column count). -/
def nFeatures (X : Mat) : ℕ := (X.headD []).length

/-- `X[i][f]` (0 outside bounds; all uses are in bounds). -/
def Xval (X : Mat) (i f : ℕ) : ℚ := (X.getD i []).getD f 0

/-- Column `f` of `X` as a list, `X[:, f]`. -/
def colList (X : Mat) (f : ℕ) : List ℚ := X.map (fun row => row.getD f 0)

/-- `np.max` of a nonempty list (0 on `[]`, a case numpy rejects instead;
    the `Except` wrappers model that rejection). -/
def listMax : List ℚ → ℚ
  | [] => 0
  | h :: t => t.foldl max h

/-- `np.min` of a nonempty list (0 on `[]`, see `listMax`). -/
def listMin : List ℚ → ℚ
  | [] => 0
  | h :: t => t.foldl min h

/-- `np.max(X, axis=0)[f]`. -/
def colMax (X : Mat) (f : ℕ) : ℚ := listMax (colList X f)

/-- `np.min(X, axis=0)[f]`. -/
def colMin (X : Mat) (f : ℕ) : ℚ := listMin (colList X f)

/-- `STIR.max_diff`: per-column `np.max(X, axis=0) - np.min(X, axis=0)`. -/
def max_diff_vec (X : Mat) : List ℚ :=
  (List.range (nFeatures X)).map (fun f => colMax X f - colMin X f)

/-- `STIR.max_diff` as numpy executes it: the `np.max` reduction raises on
    a zero-sample input. -/
def stir_max_diff (X : Mat) : Except PyErr (List ℚ) :=
  if X.isEmpty then .error .zeroSizeReduction else .ok (max_diff_vec X)

/-- The zero-range guard value `1e-14` (exact as a rational). -/
def epsRange : ℚ := 1 / 10 ^ 14

/-- `v[v == 0] = 1e-14` applied entrywise. -/
def substEps (r : ℚ) : ℚ := if r = 0 then epsRange else r

/-- The range vector with the zero-range substitution as computed in
    `STIR.distance_matrix` (`max_diff_vec[max_diff_vec == 0] = 1e-14`). -/
def distRangeVec (X : Mat) : List ℚ := (max_diff_vec X).map substEps

/-- The range vector with the zero-range substitution as recomputed in
    `STIR.fit` (`range_vec = np.array(self.max_diff(X)); range_vec[range_vec == 0] = 1e-14`). -/
def fitRangeVec (X : Mat) : List ℚ := (max_diff_vec X).map substEps

/-- `X_scaled[i][f] = (X[i][f] - min_vec[f]) / max_diff_vec'[f]` from
    `STIR.distance_matrix`. -/
def scaledVal (X : Mat) (i f : ℕ) : ℚ :=
  (Xval X i f - colMin X f) / (distRangeVec X).getD f 0

/-- Entry `(i, j)` of the distance matrix: the SQUARED Euclidean distance
    between scaled rows `i` and `j` (see the header note: `sqrt` is
    dropped because every consumer is invariant under it). -/
def sqDist (X : Mat) (i j : ℕ) : ℚ :=
  ((List.range (nFeatures X)).map
    (fun f => (scaledVal X i f - scaledVal X j f) ^ 2)).sum

/-- Row `i` of the distance matrix, `X_distances[i]`. -/
def distRow (X : Mat) (i : ℕ) : List ℚ :=
  (List.range (nSamples X)).map (fun j => sqDist X i j)

/-- `STIR.distance_matrix`: scale, then all pairwise (squared) distances.
    Raises iff `max_diff` does (zero samples). -/
def stir_distance_matrix (X : Mat) : Except PyErr Mat := do
  let _ ← stir_max_diff X
  .ok ((List.range (nSamples X)).map (fun i => distRow X i))

/-- The order `np.argsort` sorts by, made deterministic: ascending key
    with ties broken by ascending position. -/
def lexLe (key : ℕ → ℚ) (a b : ℕ) : Prop :=
  key a < key b ∨ (key a = key b ∧ a ≤ b)

instance lexLe.instDecidable (key : ℕ → ℚ) : DecidableRel (lexLe key) :=
  fun a b =>
    decidable_of_iff (key a < key b ∨ (key a = key b ∧ a ≤ b)) Iff.rfl

/-- `nearest = np.argsort(distances)` for row `i`: all sample indices
    ordered by distance from `i`, modelled as the stable sort. -/
def stir_nearest (X : Mat) (i : ℕ) : List ℕ :=
  List.insertionSort (lexLe (fun j => (distRow X i).getD j 0))
    (List.range (nSamples X))

/-- `nearest_matrix = np.column_stack((nearest, [y[j] for j in nearest]))`. -/
def nearestMatrix (X : Mat) (y : List ℤ) (i : ℕ) : List (ℕ × ℤ) :=
  (stir_nearest X i).map (fun j => (j, y.getD j 0))

/-- `nearest_matrix[0, 1]`: the label at the first sorted position, the
    reference label of the hit/miss split. -/
def refLabel (X : Mat) (y : List ℤ) (i : ℕ) : ℤ :=
  ((nearestMatrix X y i).headD (0, 0)).2

/-- `nearest_hits`: rows of `nearest_matrix` whose label equals the
    reference label. -/
def nearestHits (X : Mat) (y : List ℤ) (i : ℕ) : List (ℕ × ℤ) :=
  (nearestMatrix X y i).filter (fun r => decide (r.2 = refLabel X y i))

/-- `nearest_misses`: rows of `nearest_matrix` whose label differs from
    the reference label. -/
def nearestMisses (X : Mat) (y : List ℤ) (i : ℕ) : List (ℕ × ℤ) :=
  (nearestMatrix X y i).filter (fun r => decide (r.2 ≠ refLabel X y i))

/-- `k_nearest_hits = [row[0] for row in nearest_hits[1:(k + 1)]]`. -/
def kNearestHits (X : Mat) (y : List ℤ) (k i : ℕ) : List ℕ :=
  (((nearestHits X y i).drop 1).take k).map Prod.fst

/-- `k_nearest_misses = [row[0] for row in nearest_misses[:k]]`. -/
def kNearestMisses (X : Mat) (y : List ℤ) (k i : ℕ) : List ℕ :=
  ((nearestMisses X y i).take k).map Prod.fst

/-- `indexes`: each sample index repeated `k` times
    (`indexes += [i for j in range(k)]` over the loop). -/
def hitIndexes (X : Mat) (k : ℕ) : List ℕ :=
  ((List.range (nSamples X)).map (fun i => List.replicate k i)).flatten

/-- `hits`: concatenation of all per-sample `k_nearest_hits`. -/
def allHits (X : Mat) (y : List ℤ) (k : ℕ) : List ℕ :=
  ((List.range (nSamples X)).map (fun i => kNearestHits X y k i)).flatten

/-- `misses`: concatenation of all per-sample `k_nearest_misses`. -/
def allMisses (X : Mat) (y : List ℤ) (k : ℕ) : List ℕ :=
  ((List.range (nSamples X)).map (fun i => kNearestMisses X y k i)).flatten

/-- `STIR.find_neighbors`: the two `(sample, neighbor)` pair lists built by
    `np.column_stack((indexes, hits))` and `np.column_stack((indexes, misses))`;
    `column_stack` raises `ValueError` when the columns' lengths differ. -/
def stir_find_neighbors (X : Mat) (y : List ℤ) (k : ℕ) :
    Except PyErr (List (ℕ × ℕ) × List (ℕ × ℕ)) := do
  let _ ← stir_distance_matrix X
  if (allHits X y k).length = (hitIndexes X k).length ∧
     (allMisses X y k).length = (hitIndexes X k).length then
    .ok ((hitIndexes X k).zip (allHits X y k),
         (hitIndexes X k).zip (allMisses X y k))
  else
    .error .stackMismatch

/-- Modelled from the spec: `generate_features` (from the `ITMO_FS.utils`
    module, which is not under `src/`) produces the column indices
    `0..n_features-1` — "Columns are features, addressed by integer index
    0..n_features-1". -/
def generate_features (X : Mat) : List ℕ := List.range (nFeatures X)

/-- The model instance's attributes.  In `feature_scores` and
    `top_features`, `none` models the Python value `None` that `__init__`
    assigns.  In `selected_features`, `none` models the attribute never
    having been assigned at all — `__init__` does not set it, only `fit`
    does, and reading it unassigned raises `AttributeError`. -/
structure STIRState where
  n_features_to_keep : ℕ
  feature_scores : Option (List ℚ)
  top_features : Option (List ℕ)
  selected_features : Option (List ℕ)
deriving DecidableEq, Repr

/-- `STIR.__init__(n_features_to_keep)`. -/
def STIR_init (nk : ℕ) : STIRState :=
  { n_features_to_keep := nk
    feature_scores := none         -- `self.feature_scores = None`
    top_features := none           -- `self.top_features = None`
    selected_features := none }    -- never assigned by `__init__`

/-- `one_over_range = 1 / range_vec` from `STIR.fit`. -/
def oneOverRange (X : Mat) (f : ℕ) : ℚ := 1 / (fitRangeVec X).getD f 0

/-- The `(sample, hit_neighbor)` pairs `hsplit` recovers in `fit`
    (`hit_index`, `hits` flattened and re-paired). -/
def hitPairs (X : Mat) (y : List ℤ) (k : ℕ) : List (ℕ × ℕ) :=
  (hitIndexes X k).zip (allHits X y k)

/-- The `(sample, miss_neighbor)` pairs recovered in `fit`. -/
def missPairs (X : Mat) (y : List ℤ) (k : ℕ) : List (ℕ × ℕ) :=
  (hitIndexes X k).zip (allMisses X y k)

/-- `mu_hits` for feature `f`:
    `np.sum(np.abs(hit_neighbors - hit_values) * one_over_range[f]) / n_samples`. -/
def muHit (X : Mat) (y : List ℤ) (k f : ℕ) : ℚ :=
  ((hitPairs X y k).map
    (fun p => |Xval X p.2 f - Xval X p.1 f| * oneOverRange X f)).sum
    / (nSamples X : ℚ)

/-- `mu_misses` for feature `f`. -/
def muMiss (X : Mat) (y : List ℤ) (k f : ℕ) : ℚ :=
  ((missPairs X y k).map
    (fun p => |Xval X p.2 f - Xval X p.1 f| * oneOverRange X f)).sum
    / (nSamples X : ℚ)

/-- The weight vector filled by `fit`'s feature loop:
    `weights[f] = mu_misses - mu_hits`. -/
def stir_weights (X : Mat) (y : List ℤ) (k : ℕ) : List ℚ :=
  (List.range (nFeatures X)).map (fun f => muMiss X y k f - muHit X y k f)

/-- `self.feature_scores = weights * one_over_m * 1000`. -/
def stir_feature_scores (X : Mat) (y : List ℤ) (k : ℕ) : List ℚ :=
  (stir_weights X y k).map (fun w => w * (1 / (nSamples X : ℚ)) * 1000)

/-- `self.selected_features = features[np.argsort(feature_scores)[::-1][:n_features_to_keep]]`,
    with `np.argsort` modelled as the stable ascending sort. -/
def stir_selected (X : Mat) (y : List ℤ) (k nk : ℕ) : List ℕ :=
  (((List.insertionSort
      (lexLe (fun f => (stir_feature_scores X y k).getD f 0))
      (List.range (nFeatures X))).reverse).take nk).map
    (fun idx => (generate_features X).getD idx 0)

/-- `STIR.fit`.  Input validation (`_check_input`, an external collaborator
    outside `src/`) is the identity on the already-clean arrays the spec
    assumes.  `find_neighbors` runs before the range-vector recomputation,
    so any exception surfaces from there; once it succeeds the remaining
    arithmetic is total. -/
def stir_fit (st : STIRState) (X : Mat) (y : List ℤ) (k : ℕ) :
    Except PyErr STIRState := do
  let _ ← stir_find_neighbors X y k
  .ok { st with
        feature_scores := some (stir_feature_scores X y k)
        selected_features := some (stir_selected X y k st.n_features_to_keep) }

/-- `STIR.transform` on a numeric array: `X[:, self.selected_features]`.
    Reading `selected_features` on an instance that never assigned it
    raises `AttributeError`. -/
def stir_transform (st : STIRState) (X : Mat) : Except PyErr Mat :=
  match st.selected_features with
  | none => .error (.attributeError "selected_features")
  | some sel => .ok (X.map (fun row => sel.map (fun j => row.getD j 0)))

/-- `STIR.fit_transform`: `self.fit(X, y, feature_names, k)` then
    `return self.transform(X)`.  The pair records the mutated instance
    (`self` after `fit`) together with the returned matrix. -/
def stir_fit_transform (st : STIRState) (X : Mat) (y : List ℤ) (k : ℕ) :
    Except PyErr (STIRState × Mat) := do
  let st' ← stir_fit st X y k
  let M ← stir_transform st' X
  .ok (st', M)

/-- Following the spec's words (for comparison against the code's `fit`):
    "Gather, for every (sample_index, hit_neighbor_index) pair,
    `|X[sample,f] - X[hit_neighbor,f]| / range_f`; sum these and divide by
    n_samples → `mu_hit[f]`" (with the zero-guard range, per §4.3). -/
def specMuHit (X : Mat) (y : List ℤ) (k f : ℕ) : ℚ :=
  ((hitPairs X y k).map
    (fun p => |Xval X p.1 f - Xval X p.2 f| / (fitRangeVec X).getD f 0)).sum
    / (nSamples X : ℚ)

/-- Following the spec's words: the analogous quantity over miss pairs. -/
def specMuMiss (X : Mat) (y : List ℤ) (k f : ℕ) : ℚ :=
  ((missPairs X y k).map
    (fun p => |Xval X p.1 f - Xval X p.2 f| / (fitRangeVec X).getD f 0)).sum
    / (nSamples X : ℚ)

/-- Following the spec's words:
    `score[f] = (mu_miss[f] - mu_hit[f]) / n_samples * 1000`. -/
def specScore (X : Mat) (y : List ℤ) (k f : ℕ) : ℚ :=
  (specMuMiss X y k f - specMuHit X y k f) / (nSamples X : ℚ) * 1000

/-- The claim's neighbour precondition, first half: every sample's class
    has at least `k + 1` members (so `k` hits besides the sample itself
    exist). -/
def classSizeOK (X : Mat) (y : List ℤ) (k : ℕ) : Prop :=
  ∀ j, j < nSamples X →
    k + 1 ≤ (List.range (nSamples X)).countP
      (fun a => decide (y.getD a 0 = y.getD j 0))

/-- The claim's neighbour precondition, second half: for every sample at
    least `k` samples carry a different label (so `k` misses exist). -/
def missPoolOK (X : Mat) (y : List ℤ) (k : ℕ) : Prop :=
  ∀ j, j < nSamples X →
    k ≤ (List.range (nSamples X)).countP
      (fun a => decide (y.getD a 0 ≠ y.getD j 0))

instance classSizeOK.instDecidable (X : Mat) (y : List ℤ) (k : ℕ) :
    Decidable (classSizeOK X y k) := by
  unfold classSizeOK
  infer_instance

instance missPoolOK.instDecidable (X : Mat) (y : List ℤ) (k : ℕ) :
    Decidable (missPoolOK X y k) := by
  unfold missPoolOK
  infer_instance

/-! ### Order facts about the argsort comparator -/

instance lexLe.instIsTotal (key : ℕ → ℚ) : IsTotal ℕ (lexLe key) := by
  constructor
  intro a b
  rcases lt_trichotomy (key a) (key b) with h | h | h
  · exact Or.inl (Or.inl h)
  · rcases Nat.le_total a b with hab | hab
    · exact Or.inl (Or.inr ⟨h, hab⟩)
    · exact Or.inr (Or.inr ⟨h.symm, hab⟩)
  · exact Or.inr (Or.inl h)

instance lexLe.instIsTrans (key : ℕ → ℚ) : IsTrans ℕ (lexLe key) := by
  constructor
  intro a b c hab hbc
  rcases hab with hab | ⟨hab, hab'⟩
  · rcases hbc with hbc | ⟨hbc, _⟩
    · exact Or.inl (hab.trans hbc)
    · exact Or.inl (hbc ▸ hab)
  · rcases hbc with hbc | ⟨hbc, hbc'⟩
    · exact Or.inl (hab ▸ hbc)
    · exact Or.inr ⟨hab.trans hbc, hab'.trans hbc'⟩

theorem lexLe_antisymm {key : ℕ → ℚ} {a b : ℕ}
    (hab : lexLe key a b) (hba : lexLe key b a) : a = b := by
  rcases hab with hab | ⟨hab, hab'⟩
  · rcases hba with hba | ⟨hba, _⟩
    · exact absurd hba (lt_asymm hab)
    · exact absurd hba (ne_of_gt hab)
  · rcases hba with hba | ⟨_, hba'⟩
    · exact absurd hab (ne_of_gt hba)
    · exact Nat.le_antisymm hab' hba'

theorem lexLe_refl (key : ℕ → ℚ) (a : ℕ) : lexLe key a a :=
  Or.inr ⟨rfl, Nat.le_refl a⟩

/-! ### Generic argsort lemmas -/

theorem argsort_perm (key : ℕ → ℚ) (n : ℕ) :
    List.Perm (List.insertionSort (lexLe key) (List.range n)) (List.range n) :=
  List.perm_insertionSort _ _

theorem argsort_mem {key : ℕ → ℚ} {n j : ℕ} :
    j ∈ List.insertionSort (lexLe key) (List.range n) ↔ j < n := by
  rw [(argsort_perm key n).mem_iff, List.mem_range]

theorem argsort_nodup (key : ℕ → ℚ) (n : ℕ) :
    (List.insertionSort (lexLe key) (List.range n)).Nodup :=
  (argsort_perm key n).nodup_iff.mpr (List.nodup_range n)

theorem argsort_sorted (key : ℕ → ℚ) (n : ℕ) :
    List.Sorted (lexLe key) (List.insertionSort (lexLe key) (List.range n)) :=
  List.sorted_insertionSort _ _

/-- The head of the stable argsort is any index that is `lexLe`-below every
    index of the range. -/
theorem argsort_headD_eq {key : ℕ → ℚ} {n i : ℕ} (hi : i < n)
    (hmin : ∀ j, j < n → lexLe key i j) :
    (List.insertionSort (lexLe key) (List.range n)).headD 0 = i := by
  have hmem : i ∈ List.insertionSort (lexLe key) (List.range n) :=
    argsort_mem.mpr hi
  rcases hl : List.insertionSort (lexLe key) (List.range n) with _ | ⟨h, t⟩
  · rw [hl] at hmem
    exact absurd hmem (List.not_mem_nil i)
  · have hsorted := argsort_sorted key n
    rw [hl] at hsorted hmem
    have hh : h < n := by
      have : h ∈ List.insertionSort (lexLe key) (List.range n) := by
        rw [hl]; exact List.mem_cons_self h t
      exact argsort_mem.mp this
    rcases List.mem_cons.mp hmem with hmem | hmem
    · exact hmem.symm
    · exact lexLe_antisymm (List.rel_of_sorted_cons hsorted i hmem)
        (hmin h hh)

/-! ### `getD` computations -/

theorem getD_map_range {α : Type} (g : ℕ → α) (d : α) {f n : ℕ} (h : f < n) :
    ((List.range n).map g).getD f d = g f := by
  rw [List.getD_eq_getElem?_getD, List.getElem?_map, List.getElem?_range h]
  rfl

theorem getD_range {f n : ℕ} (h : f < n) (d : ℕ) :
    (List.range n).getD f d = f := by
  rw [List.getD_eq_getElem?_getD, List.getElem?_range h]
  rfl

/-! ### Distance facts -/

theorem sqDist_self (X : Mat) (i : ℕ) : sqDist X i i = 0 := by
  unfold sqDist
  have h : ∀ f ∈ List.range (nFeatures X),
      (scaledVal X i f - scaledVal X i f) ^ 2 = 0 := by
    intro f _
    rw [sub_self]
    ring
  rw [List.map_congr_left h]
  simp

theorem sqDist_nonneg (X : Mat) (i j : ℕ) : 0 ≤ sqDist X i j := by
  unfold sqDist
  apply List.sum_nonneg
  intro x hx
  rcases List.mem_map.mp hx with ⟨f, _, rfl⟩
  exact sq_nonneg _

theorem distRow_getD {X : Mat} {i j : ℕ} (hj : j < nSamples X) :
    (distRow X i).getD j 0 = sqDist X i j :=
  getD_map_range _ _ hj

/-! ### The nearest-neighbour ordering (per sample) -/

theorem stir_nearest_perm (X : Mat) (i : ℕ) :
    List.Perm (stir_nearest X i) (List.range (nSamples X)) :=
  argsort_perm _ _

theorem mem_stir_nearest {X : Mat} {i j : ℕ} :
    j ∈ stir_nearest X i ↔ j < nSamples X :=
  argsort_mem

theorem stir_nearest_nodup (X : Mat) (i : ℕ) : (stir_nearest X i).Nodup :=
  argsort_nodup _ _

/-- When no earlier-indexed sample sits at distance zero from `i`, sample
    `i` itself (distance zero to itself) occupies the first sorted
    position. -/
theorem stir_nearest_headD {X : Mat} {i : ℕ} (hi : i < nSamples X)
    (hdup : ∀ j, j < i → sqDist X i j ≠ 0) :
    (stir_nearest X i).headD 0 = i := by
  apply argsort_headD_eq hi
  intro j hj
  have hkey_i : (distRow X i).getD i 0 = 0 := by
    rw [distRow_getD hi, sqDist_self]
  have hkey_j : (distRow X i).getD j 0 = sqDist X i j := distRow_getD hj
  rcases eq_or_lt_of_le (sqDist_nonneg X i j) with hz | hpos
  · right
    constructor
    · show (distRow X i).getD i 0 = (distRow X i).getD j 0
      rw [hkey_i, hkey_j, ← hz]
    · by_contra hle
      exact hdup j (Nat.lt_of_not_le hle) hz.symm
  · left
    show (distRow X i).getD i 0 < (distRow X i).getD j 0
    rw [hkey_i, hkey_j]
    exact hpos

/-! ### The hit/miss split (per sample) -/

/-- Every row of `nearest_matrix` pairs an index with its own label. -/
theorem mem_nearestMatrix {X : Mat} {y : List ℤ} {i : ℕ} {r : ℕ × ℤ}
    (hr : r ∈ nearestMatrix X y i) : r.2 = y.getD r.1 0 ∧ r.1 < nSamples X := by
  rcases List.mem_map.mp hr with ⟨j, hj, rfl⟩
  exact ⟨rfl, mem_stir_nearest.mp hj⟩

/-- Under the no-earlier-duplicate condition the reference label of the
    split is the sample's own label `y[i]`. -/
theorem refLabel_eq_own {X : Mat} {y : List ℤ} {i : ℕ} (hi : i < nSamples X)
    (hdup : ∀ j, j < i → sqDist X i j ≠ 0) :
    refLabel X y i = y.getD i 0 := by
  have hhead := stir_nearest_headD hi hdup
  have hne : stir_nearest X i ≠ [] :=
    List.ne_nil_of_mem (mem_stir_nearest.mpr hi)
  rcases hl : stir_nearest X i with _ | ⟨j, t⟩
  · exact absurd hl hne
  · rw [hl] at hhead
    simp only [List.headD_cons] at hhead
    unfold refLabel nearestMatrix
    rw [hl]
    simp only [List.map_cons, List.headD_cons, hhead]

theorem mem_nearestHits {X : Mat} {y : List ℤ} {i : ℕ} {r : ℕ × ℤ}
    (hr : r ∈ nearestHits X y i) :
    r ∈ nearestMatrix X y i ∧ r.2 = refLabel X y i := by
  have h := List.mem_filter.mp hr
  exact ⟨h.1, of_decide_eq_true h.2⟩

theorem mem_nearestMisses {X : Mat} {y : List ℤ} {i : ℕ} {r : ℕ × ℤ}
    (hr : r ∈ nearestMisses X y i) :
    r ∈ nearestMatrix X y i ∧ r.2 ≠ refLabel X y i := by
  have h := List.mem_filter.mp hr
  exact ⟨h.1, of_decide_eq_true h.2⟩

/-- Every member of the per-sample hit list carries the reference label. -/
theorem kNearestHits_label {X : Mat} {y : List ℤ} {k i h : ℕ}
    (hh : h ∈ kNearestHits X y k i) :
    y.getD h 0 = refLabel X y i ∧ h < nSamples X := by
  rcases List.mem_map.mp hh with ⟨r, hr, rfl⟩
  have hr' : r ∈ nearestHits X y i :=
    List.mem_of_mem_drop (List.mem_of_mem_take hr)
  have h1 := mem_nearestHits hr'
  have h2 := mem_nearestMatrix h1.1
  exact ⟨h2.1 ▸ h1.2, h2.2⟩

/-- Every member of the per-sample miss list carries a non-reference
    label. -/
theorem kNearestMisses_label {X : Mat} {y : List ℤ} {k i m : ℕ}
    (hm : m ∈ kNearestMisses X y k i) :
    y.getD m 0 ≠ refLabel X y i ∧ m < nSamples X := by
  rcases List.mem_map.mp hm with ⟨r, hr, rfl⟩
  have hr' : r ∈ nearestMisses X y i := List.mem_of_mem_take hr
  have h1 := mem_nearestMisses hr'
  have h2 := mem_nearestMatrix h1.1
  exact ⟨h2.1 ▸ h1.2, h2.2⟩

/-- The first columns of `nearest_matrix` are exactly the sorted index
    list (no duplicates among them). -/
theorem nearestMatrix_fst (X : Mat) (y : List ℤ) (i : ℕ) :
    (nearestMatrix X y i).map Prod.fst = stir_nearest X i := by
  unfold nearestMatrix
  rw [List.map_map]
  exact List.map_id _

/-- Under the no-earlier-duplicate condition, `nearest_hits` starts with
    the self row `(i, y[i])`. -/
theorem nearestHits_eq_cons {X : Mat} {y : List ℤ} {i : ℕ}
    (hi : i < nSamples X) (hdup : ∀ j, j < i → sqDist X i j ≠ 0) :
    ∃ t, nearestMatrix X y i = (i, y.getD i 0) :: t ∧
      nearestHits X y i =
        (i, y.getD i 0) :: t.filter (fun r => decide (r.2 = refLabel X y i)) := by
  have hhead := stir_nearest_headD hi hdup
  have hne : stir_nearest X i ≠ [] :=
    List.ne_nil_of_mem (mem_stir_nearest.mpr hi)
  rcases hl : stir_nearest X i with _ | ⟨j, t⟩
  · exact absurd hl hne
  · rw [hl] at hhead
    simp only [List.headD_cons] at hhead
    subst hhead
    refine ⟨t.map (fun j => (j, y.getD j 0)), ?_, ?_⟩
    · unfold nearestMatrix
      rw [hl]
      simp
    · unfold nearestHits nearestMatrix
      rw [hl]
      simp only [List.map_cons, List.filter_cons]
      rw [refLabel_eq_own hi hdup]
      simp

/-- Under the no-earlier-duplicate condition the sample itself is dropped
    from its own hit list by the `[1:(k+1)]` slice. -/
theorem self_not_mem_kNearestHits {X : Mat} {y : List ℤ} {k i : ℕ}
    (hi : i < nSamples X) (hdup : ∀ j, j < i → sqDist X i j ≠ 0) :
    i ∉ kNearestHits X y k i := by
  intro hmem
  rcases List.mem_map.mp hmem with ⟨r, hr, hr1⟩
  obtain ⟨t, hmat, hhits⟩ := @nearestHits_eq_cons X y i hi hdup
  rw [hhits] at hr
  simp only [List.drop_succ_cons, List.drop_zero] at hr
  have hrt : r ∈ t := List.mem_of_mem_filter (List.mem_of_mem_take hr)
  have hfst : stir_nearest X i = i :: t.map Prod.fst := by
    have := nearestMatrix_fst X y i
    rw [hmat] at this
    simpa using this.symm
  have hnodup := stir_nearest_nodup X i
  rw [hfst, List.nodup_cons] at hnodup
  exact hnodup.1 (hr1 ▸ List.mem_map_of_mem Prod.fst hrt)

/-! ### Counting neighbours: the lists line up under the precondition -/

/-- The reference label is the label of some sample. -/
theorem refLabel_exists {X : Mat} {y : List ℤ} {i : ℕ} (hi : i < nSamples X) :
    ∃ j, j < nSamples X ∧ refLabel X y i = y.getD j 0 := by
  have hne : stir_nearest X i ≠ [] :=
    List.ne_nil_of_mem (mem_stir_nearest.mpr hi)
  rcases hl : stir_nearest X i with _ | ⟨j, t⟩
  · exact absurd hl hne
  · refine ⟨j, ?_, ?_⟩
    · exact mem_stir_nearest.mp (hl ▸ List.mem_cons_self j t)
    · unfold refLabel nearestMatrix
      rw [hl]
      rfl

theorem length_nearestHits (X : Mat) (y : List ℤ) (i : ℕ) :
    (nearestHits X y i).length =
      (List.range (nSamples X)).countP
        (fun a => decide (y.getD a 0 = refLabel X y i)) := by
  unfold nearestHits nearestMatrix
  rw [← List.countP_eq_length_filter, List.countP_map]
  exact (stir_nearest_perm X i).countP_eq _

theorem length_nearestMisses (X : Mat) (y : List ℤ) (i : ℕ) :
    (nearestMisses X y i).length =
      (List.range (nSamples X)).countP
        (fun a => decide (y.getD a 0 ≠ refLabel X y i)) := by
  unfold nearestMisses nearestMatrix
  rw [← List.countP_eq_length_filter, List.countP_map]
  exact (stir_nearest_perm X i).countP_eq _

/-- With every class of size at least `k + 1`, each sample contributes
    exactly `k` hit pairs. -/
theorem length_kNearestHits {X : Mat} {y : List ℤ} {k i : ℕ}
    (hi : i < nSamples X) (hclass : classSizeOK X y k) :
    (kNearestHits X y k i).length = k := by
  obtain ⟨j, hj, href⟩ := @refLabel_exists X y i hi
  have hcount : k + 1 ≤ (nearestHits X y i).length := by
    rw [length_nearestHits, href]
    exact hclass j hj
  unfold kNearestHits
  rw [List.length_map, List.length_take, List.length_drop]
  omega

/-- With at least `k` differently-labelled samples, each sample
    contributes exactly `k` miss pairs. -/
theorem length_kNearestMisses {X : Mat} {y : List ℤ} {k i : ℕ}
    (hi : i < nSamples X) (hmiss : missPoolOK X y k) :
    (kNearestMisses X y k i).length = k := by
  obtain ⟨j, hj, href⟩ := @refLabel_exists X y i hi
  have hcount : k ≤ (nearestMisses X y i).length := by
    rw [length_nearestMisses, href]
    exact hmiss j hj
  unfold kNearestMisses
  rw [List.length_map, List.length_take]
  omega

theorem sum_map_const_nat (l : List ℕ) (c : ℕ) :
    (l.map (fun _ => c)).sum = l.length * c := by
  induction l with
  | nil => simp
  | cons a t ih => simp [ih, Nat.succ_mul, Nat.add_comm]

theorem length_hitIndexes (X : Mat) (k : ℕ) :
    (hitIndexes X k).length = nSamples X * k := by
  unfold hitIndexes
  rw [List.length_flatten, List.map_map]
  have h : ∀ i ∈ List.range (nSamples X),
      (List.length ∘ fun i => List.replicate k i) i = k := by
    intro i _
    simp
  rw [List.map_congr_left h, sum_map_const_nat]
  simp

theorem length_allHits {X : Mat} {y : List ℤ} {k : ℕ}
    (hclass : classSizeOK X y k) :
    (allHits X y k).length = nSamples X * k := by
  unfold allHits
  rw [List.length_flatten, List.map_map]
  have h : ∀ i ∈ List.range (nSamples X),
      (List.length ∘ fun i => kNearestHits X y k i) i = k := by
    intro i hi
    exact length_kNearestHits (List.mem_range.mp hi) hclass
  rw [List.map_congr_left h, sum_map_const_nat]
  simp

theorem length_allMisses {X : Mat} {y : List ℤ} {k : ℕ}
    (hmiss : missPoolOK X y k) :
    (allMisses X y k).length = nSamples X * k := by
  unfold allMisses
  rw [List.length_flatten, List.map_map]
  have h : ∀ i ∈ List.range (nSamples X),
      (List.length ∘ fun i => kNearestMisses X y k i) i = k := by
    intro i hi
    exact length_kNearestMisses (List.mem_range.mp hi) hmiss
  rw [List.map_congr_left h, sum_map_const_nat]
  simp

theorem stir_distance_matrix_ok {X : Mat} (h0 : 0 < nSamples X) :
    stir_distance_matrix X =
      .ok ((List.range (nSamples X)).map (fun i => distRow X i)) := by
  rcases X with _ | ⟨r, t⟩
  · simp [nSamples] at h0
  · rfl

theorem stir_find_neighbors_ok {X : Mat} {y : List ℤ} {k : ℕ}
    (h0 : 0 < nSamples X) (hclass : classSizeOK X y k)
    (hmiss : missPoolOK X y k) :
    stir_find_neighbors X y k = .ok (hitPairs X y k, missPairs X y k) := by
  unfold stir_find_neighbors
  rw [stir_distance_matrix_ok h0]
  have hcond : (allHits X y k).length = (hitIndexes X k).length ∧
      (allMisses X y k).length = (hitIndexes X k).length := by
    rw [length_allHits hclass, length_allMisses hmiss, length_hitIndexes]
    exact ⟨rfl, rfl⟩
  simp only [Except.bind, if_pos hcond]
  rfl

/-! ### `fit`: success and inversion -/

theorem stir_fit_ok {st : STIRState} {X : Mat} {y : List ℤ} {k : ℕ}
    (h0 : 0 < nSamples X) (hclass : classSizeOK X y k)
    (hmiss : missPoolOK X y k) :
    stir_fit st X y k = .ok { st with
      feature_scores := some (stir_feature_scores X y k)
      selected_features := some (stir_selected X y k st.n_features_to_keep) } := by
  unfold stir_fit
  rw [stir_find_neighbors_ok h0 hclass hmiss]
  rfl

theorem stir_fit_inv {st : STIRState} {X : Mat} {y : List ℤ} {k : ℕ}
    {st' : STIRState} (h : stir_fit st X y k = .ok st') :
    st'.feature_scores = some (stir_feature_scores X y k) ∧
    st'.selected_features =
      some (stir_selected X y k st.n_features_to_keep) ∧
    st'.n_features_to_keep = st.n_features_to_keep := by
  unfold stir_fit at h
  cases hfn : stir_find_neighbors X y k with
  | error e =>
    rw [hfn] at h
    simp only [bind, Except.bind] at h
    exact Except.noConfusion h
  | ok v =>
    rw [hfn] at h
    simp only [bind, Except.bind, Except.ok.injEq] at h
    rw [← h]
    exact ⟨rfl, rfl, rfl⟩

/-! ### The score formula -/

theorem muHit_eq_spec (X : Mat) (y : List ℤ) (k f : ℕ) :
    muHit X y k f = specMuHit X y k f := by
  unfold muHit specMuHit
  have h : ∀ p ∈ hitPairs X y k,
      |Xval X p.2 f - Xval X p.1 f| * oneOverRange X f =
      |Xval X p.1 f - Xval X p.2 f| / (fitRangeVec X).getD f 0 := by
    intro p _
    rw [abs_sub_comm, oneOverRange, mul_one_div]
  rw [List.map_congr_left h]

theorem muMiss_eq_spec (X : Mat) (y : List ℤ) (k f : ℕ) :
    muMiss X y k f = specMuMiss X y k f := by
  unfold muMiss specMuMiss
  have h : ∀ p ∈ missPairs X y k,
      |Xval X p.2 f - Xval X p.1 f| * oneOverRange X f =
      |Xval X p.1 f - Xval X p.2 f| / (fitRangeVec X).getD f 0 := by
    intro p _
    rw [abs_sub_comm, oneOverRange, mul_one_div]
  rw [List.map_congr_left h]

theorem stir_feature_scores_getD {X : Mat} {y : List ℤ} {k f : ℕ}
    (hf : f < nFeatures X) :
    (stir_feature_scores X y k).getD f 0 =
      (muMiss X y k f - muHit X y k f) * (1 / (nSamples X : ℚ)) * 1000 := by
  unfold stir_feature_scores stir_weights
  rw [List.map_map, getD_map_range _ _ hf]
  rfl

/-! ### The selection order -/

theorem stir_selected_elements {X : Mat} {y : List ℤ} {k nk a : ℕ}
    (ha : a ∈ ((List.insertionSort
        (lexLe (fun f => (stir_feature_scores X y k).getD f 0))
        (List.range (nFeatures X))).reverse.take nk)) :
    a < nFeatures X :=
  argsort_mem.mp (List.mem_reverse.mp (List.mem_of_mem_take ha))

/-- The `features[...]` indexing collapses: `generate_features` is the
    identity on the in-range sort output. -/
theorem stir_selected_eq_take (X : Mat) (y : List ℤ) (k nk : ℕ) :
    stir_selected X y k nk =
      ((List.insertionSort
        (lexLe (fun f => (stir_feature_scores X y k).getD f 0))
        (List.range (nFeatures X))).reverse.take nk) := by
  unfold stir_selected generate_features
  have h : ∀ a ∈ ((List.insertionSort
      (lexLe (fun f => (stir_feature_scores X y k).getD f 0))
      (List.range (nFeatures X))).reverse.take nk),
      (List.range (nFeatures X)).getD a 0 = a := by
    intro a ha
    exact getD_range (stir_selected_elements ha) 0
  rw [List.map_congr_left h]
  exact List.map_id' _

theorem stir_selected_length (X : Mat) (y : List ℤ) (k nk : ℕ) :
    (stir_selected X y k nk).length = min nk (nFeatures X) := by
  rw [stir_selected_eq_take]
  rw [List.length_take, List.length_reverse, List.length_insertionSort,
    List.length_range]

theorem stir_selected_pairwise (X : Mat) (y : List ℤ) (k nk : ℕ) :
    List.Pairwise (fun a b =>
      (stir_feature_scores X y k).getD a 0 >
        (stir_feature_scores X y k).getD b 0 ∨
      ((stir_feature_scores X y k).getD a 0 =
        (stir_feature_scores X y k).getD b 0 ∧ a > b))
      (stir_selected X y k nk) := by
  rw [stir_selected_eq_take]
  have hsorted := argsort_sorted
    (fun f => (stir_feature_scores X y k).getD f 0) (nFeatures X)
  have hnodup : List.Pairwise (fun a b : ℕ => a ≠ b)
      (List.insertionSort
        (lexLe (fun f => (stir_feature_scores X y k).getD f 0))
        (List.range (nFeatures X))) :=
    argsort_nodup _ _
  have hboth := List.Pairwise.and hsorted hnodup
  have hrev : List.Pairwise (fun a b =>
      lexLe (fun f => (stir_feature_scores X y k).getD f 0) b a ∧ b ≠ a)
      ((List.insertionSort
        (lexLe (fun f => (stir_feature_scores X y k).getD f 0))
        (List.range (nFeatures X))).reverse) :=
    List.pairwise_reverse.mpr hboth
  have htake := hrev.sublist (List.take_sublist nk _)
  apply htake.imp
  intro a b hab
  rcases hab.1 with hlt | ⟨heq, hle⟩
  · exact Or.inl hlt
  · exact Or.inr ⟨heq.symm, Nat.lt_of_le_of_ne hle hab.2⟩

theorem mem_stir_selected_of_le {X : Mat} {y : List ℤ} {k nk f : ℕ}
    (hnk : nFeatures X ≤ nk) (hf : f < nFeatures X) :
    f ∈ stir_selected X y k nk := by
  rw [stir_selected_eq_take]
  rw [List.take_of_length_le]
  · rw [List.mem_reverse]
    exact argsort_mem.mpr hf
  · rw [List.length_reverse, List.length_insertionSort, List.length_range]
    exact hnk

/-! ### Columns, ranges and the zero-range guard -/

theorem le_foldl_max (t : List ℚ) (acc : ℚ) : acc ≤ t.foldl max acc := by
  induction t generalizing acc with
  | nil => exact le_refl acc
  | cons a t ih => exact le_trans (le_max_left acc a) (ih (max acc a))

theorem foldl_min_le (t : List ℚ) (acc : ℚ) : t.foldl min acc ≤ acc := by
  induction t generalizing acc with
  | nil => exact le_refl acc
  | cons a t ih => exact le_trans (ih (min acc a)) (min_le_left acc a)

theorem listMin_le_listMax (l : List ℚ) : listMin l ≤ listMax l := by
  rcases l with _ | ⟨h, t⟩
  · exact le_refl 0
  · exact le_trans (foldl_min_le t h) (le_foldl_max t h)

theorem foldl_max_all_eq (t : List ℚ) (acc : ℚ)
    (h : ∀ x ∈ t, x = acc) : t.foldl max acc = acc := by
  induction t with
  | nil => rfl
  | cons a t ih =>
    have ha : a = acc := h a (List.mem_cons_self a t)
    simp only [List.foldl_cons, ha, max_self]
    exact ih (fun x hx => h x (List.mem_cons_of_mem a hx))

theorem foldl_min_all_eq (t : List ℚ) (acc : ℚ)
    (h : ∀ x ∈ t, x = acc) : t.foldl min acc = acc := by
  induction t with
  | nil => rfl
  | cons a t ih =>
    have ha : a = acc := h a (List.mem_cons_self a t)
    simp only [List.foldl_cons, ha, min_self]
    exact ih (fun x hx => h x (List.mem_cons_of_mem a hx))

theorem listMax_all_eq {l : List ℚ} {c : ℚ} (hne : l ≠ [])
    (h : ∀ x ∈ l, x = c) : listMax l = c := by
  rcases l with _ | ⟨a, t⟩
  · exact absurd rfl hne
  · have ha : a = c := h a (List.mem_cons_self a t)
    subst ha
    exact foldl_max_all_eq t a (fun x hx => h x (List.mem_cons_of_mem a hx))

theorem listMin_all_eq {l : List ℚ} {c : ℚ} (hne : l ≠ [])
    (h : ∀ x ∈ l, x = c) : listMin l = c := by
  rcases l with _ | ⟨a, t⟩
  · exact absurd rfl hne
  · have ha : a = c := h a (List.mem_cons_self a t)
    subst ha
    exact foldl_min_all_eq t a (fun x hx => h x (List.mem_cons_of_mem a hx))

theorem distRangeVec_getD {X : Mat} {f : ℕ} (hf : f < nFeatures X) :
    (distRangeVec X).getD f 0 = substEps (colMax X f - colMin X f) := by
  unfold distRangeVec max_diff_vec
  rw [List.map_map, getD_map_range _ _ hf]
  rfl

theorem epsRange_pos : 0 < epsRange := by
  norm_num [epsRange]

theorem substEps_pos {r : ℚ} (hr : 0 ≤ r) : 0 < substEps r := by
  unfold substEps
  split
  · exact epsRange_pos
  · exact lt_of_le_of_ne hr (Ne.symm (by assumption))

theorem colMin_le_colMax (X : Mat) (f : ℕ) : colMin X f ≤ colMax X f :=
  listMin_le_listMax (colList X f)

/-- Every element of a column equals `X[0][f]` when the column is
    constant. -/
theorem colList_all_eq {X : Mat} {j : ℕ}
    (hconst : ∀ i, i < nSamples X → Xval X i j = Xval X 0 j) :
    ∀ v ∈ colList X j, v = Xval X 0 j := by
  intro v hv
  rcases List.mem_map.mp hv with ⟨row, hrow, hval⟩
  rcases List.mem_iff_getElem.mp hrow with ⟨idx, hidx, hroweq⟩
  have hXv : Xval X idx j = v := by
    unfold Xval
    rw [List.getD_eq_getElem?_getD X idx [], List.getElem?_eq_getElem hidx]
    simp only [Option.getD_some]
    rw [hroweq]
    exact hval
  rw [← hXv]
  exact hconst idx hidx

/-! ### The claims -/

/-- C1: for every `fit` input satisfying the neighbour precondition
    (every class has at least `k+1` members and at least `k` samples carry
    another label), `fit` succeeds and the score of each feature `f`
    equals `(mu_miss[f] - mu_hit[f]) / n_samples * 1000`, with `mu_hit`
    and `mu_miss` the range-normalised mean absolute differences over the
    hit and miss pairs as the spec words them. -/
theorem claim1_fit_scores_formula (st : STIRState) (X : Mat) (y : List ℤ)
    (k f : ℕ) (h0 : 0 < nSamples X) (hclass : classSizeOK X y k)
    (hmiss : missPoolOK X y k) (hf : f < nFeatures X) :
    ∃ st', stir_fit st X y k = .ok st' ∧
      st'.feature_scores = some (stir_feature_scores X y k) ∧
      (stir_feature_scores X y k).getD f 0 = specScore X y k f := by
  refine ⟨_, stir_fit_ok h0 hclass hmiss, rfl, ?_⟩
  rw [stir_feature_scores_getD hf, muHit_eq_spec, muMiss_eq_spec]
  unfold specScore
  rw [mul_one_div]

/-- C2 (amended): the claimed neighbour-list invariants (hit labels equal
    `y[i]`, miss labels differ from `y[i]`, neither list contains `i`,
    lists mutually disjoint) hold for a sample `i` PROVIDED no
    earlier-indexed sample lies at distance zero from `i` (in particular,
    whenever the rows are pairwise distinct); the claim as stated fails on
    duplicate rows, see the counterexample. -/
theorem claim2_neighbor_invariants (X : Mat) (y : List ℤ) (k i : ℕ)
    (hclass : classSizeOK X y k) (hi : i < nSamples X)
    (hdup : ∀ j, j < i → sqDist X i j ≠ 0) :
    (∀ h ∈ kNearestHits X y k i, y.getD h 0 = y.getD i 0 ∧ h ≠ i) ∧
    (∀ m ∈ kNearestMisses X y k i, y.getD m 0 ≠ y.getD i 0 ∧ m ≠ i) ∧
    (∀ h ∈ kNearestHits X y k i, h ∉ kNearestMisses X y k i) := by
  have href := @refLabel_eq_own X y i hi hdup
  refine ⟨?_, ?_, ?_⟩
  · intro h hh
    have h1 := (kNearestHits_label hh).1
    refine ⟨by rw [h1, href], ?_⟩
    intro he
    exact self_not_mem_kNearestHits hi hdup (he ▸ hh)
  · intro m hm
    have h1 := (kNearestMisses_label hm).1
    have hne : y.getD m 0 ≠ y.getD i 0 := by
      rw [← href]
      exact h1
    refine ⟨hne, ?_⟩
    intro he
    exact hne (he ▸ rfl)
  · intro h hh hm
    exact (kNearestMisses_label hm).1 ((kNearestHits_label hh).1)

/-- C3 (amended): after every successful `fit` the selected features are
    ordered by score descending, and two features with EQUAL scores appear
    in DESCENDING original-index order (the `[::-1]` reversal of the
    stable ascending argsort flips the tie order; the claim's ascending
    tie-break fails, see the counterexample). -/
theorem claim3_selected_order (st : STIRState) (X : Mat) (y : List ℤ)
    (k : ℕ) (st' : STIRState) (sel : List ℕ)
    (hfit : stir_fit st X y k = .ok st')
    (hsel : st'.selected_features = some sel) :
    List.Pairwise (fun a b =>
      (stir_feature_scores X y k).getD a 0 >
        (stir_feature_scores X y k).getD b 0 ∨
      ((stir_feature_scores X y k).getD a 0 =
        (stir_feature_scores X y k).getD b 0 ∧ a > b)) sel := by
  have hinv := stir_fit_inv hfit
  rw [hinv.2.1] at hsel
  injection hsel with hsel
  subst hsel
  exact stir_selected_pairwise X y k st.n_features_to_keep

/-- C4: after every successful `fit`, the number of selected features is
    `min(n_features_to_keep, n_features)`, and when
    `n_features_to_keep ≥ n_features` every feature is selected. -/
theorem claim4_selection_size (st : STIRState) (X : Mat) (y : List ℤ)
    (k : ℕ) (st' : STIRState) (sel : List ℕ)
    (hfit : stir_fit st X y k = .ok st')
    (hsel : st'.selected_features = some sel) :
    sel.length = min st.n_features_to_keep (nFeatures X) ∧
    (nFeatures X ≤ st.n_features_to_keep →
      ∀ f, f < nFeatures X → f ∈ sel) := by
  have hinv := stir_fit_inv hfit
  rw [hinv.2.1] at hsel
  injection hsel with hsel
  subst hsel
  exact ⟨stir_selected_length _ _ _ _,
    fun hge f hf => mem_stir_selected_of_le hge hf⟩

/-- C5 (amended): for every sample `i`, `np.argsort` yields all sample
    indices ordered by ascending distance with ties broken by ascending
    original index (stable), and `i` occupies the first position PROVIDED
    no earlier-indexed sample lies at distance zero from `i`; with a
    duplicate row at a smaller index the first position holds that
    duplicate instead, see the counterexample.  (`sqDist` is the squared
    Euclidean distance; the ordering and its ties agree with the
    metric's.) -/
theorem claim5_nearest_sorted (X : Mat) (i : ℕ) (hi : i < nSamples X) :
    List.Pairwise (fun a b => sqDist X i a < sqDist X i b ∨
      (sqDist X i a = sqDist X i b ∧ a < b)) (stir_nearest X i) ∧
    List.Perm (stir_nearest X i) (List.range (nSamples X)) ∧
    ((∀ j, j < i → sqDist X i j ≠ 0) → (stir_nearest X i).headD 0 = i) := by
  refine ⟨?_, stir_nearest_perm X i,
    fun hdup => stir_nearest_headD hi hdup⟩
  have hsorted : List.Pairwise (lexLe (fun j => (distRow X i).getD j 0))
      (stir_nearest X i) := argsort_sorted _ _
  have hnodup : List.Pairwise (fun a b : ℕ => a ≠ b) (stir_nearest X i) :=
    stir_nearest_nodup X i
  have hboth := List.Pairwise.and hsorted hnodup
  refine List.Pairwise.imp_of_mem ?_ hboth
  intro a b ha hb hab
  have ha2 : a < nSamples X := mem_stir_nearest.mp ha
  have hb2 : b < nSamples X := mem_stir_nearest.mp hb
  rcases hab.1 with hlt | ⟨heq, hle⟩
  · left
    rw [← distRow_getD ha2, ← distRow_getD hb2]
    exact hlt
  · right
    constructor
    · rw [← distRow_getD ha2, ← distRow_getD hb2]
      exact heq
    · exact Nat.lt_of_le_of_ne hle hab.2

/-- C6: a constant column gets the epsilon `1e-14` substituted for its
    zero range, its normalised values are all zero, every range-vector
    entry is nonzero, and the sample count is nonzero — so no division in
    the score pipeline has a zero denominator (over ℚ no NaN or Inf can
    arise). -/
theorem claim6_constant_feature (X : Mat) (j : ℕ) (h0 : 0 < nSamples X)
    (hj : j < nFeatures X)
    (hconst : ∀ i, i < nSamples X → Xval X i j = Xval X 0 j) :
    (distRangeVec X).getD j 0 = epsRange ∧
    (∀ i, i < nSamples X → scaledVal X i j = 0) ∧
    (∀ f, f < nFeatures X → (distRangeVec X).getD f 0 ≠ 0) ∧
    (nSamples X : ℚ) ≠ 0 := by
  have hne : colList X j ≠ [] := by
    intro hnil
    have := congrArg List.length hnil
    simp only [colList, List.length_map, List.length_nil] at this
    rw [nSamples, this] at h0
    exact Nat.lt_irrefl 0 h0
  have hall := colList_all_eq hconst
  have hmax : colMax X j = Xval X 0 j := listMax_all_eq hne hall
  have hmin : colMin X j = Xval X 0 j := listMin_all_eq hne hall
  have hrange : colMax X j - colMin X j = 0 := by
    rw [hmax, hmin, sub_self]
  refine ⟨?_, ?_, ?_, ?_⟩
  · rw [distRangeVec_getD hj, hrange]
    unfold substEps
    simp
  · intro i hi
    unfold scaledVal
    rw [hconst i hi, hmin, sub_self, zero_div]
  · intro f hf
    rw [distRangeVec_getD hf]
    exact ne_of_gt (substEps_pos (sub_nonneg.mpr (colMin_le_colMax X f)))
  · exact Nat.cast_ne_zero.mpr (Nat.pos_iff_ne_zero.mp h0)

/-- C7 (amended): calling `transform` before any `fit` always fails — it
    is never a silent no-op — but the failure is an `AttributeError` on
    the never-assigned `selected_features` attribute, not a clear
    "model not fitted" error; the claim as stated fails, see the
    counterexample. -/
theorem claim7_transform_unfitted (nk : ℕ) (X : Mat) :
    stir_transform (STIR_init nk) X =
      .error (.attributeError "selected_features") := rfl

/-- C8 (amended): on an input with zero or one samples (and `k ≥ 1`),
    `fit` does raise an error, but a generic one — not an explicit
    "insufficient samples" error — and for a single sample the degenerate
    1×1 distance matrix IS built before the failure; the claim as stated
    fails, see the counterexample. -/
theorem claim8_fit_small_input (st : STIRState) (X : Mat) (y : List ℤ)
    (k : ℕ) (hk : 1 ≤ k) (hn : nSamples X ≤ 1) :
    (∃ e, stir_fit st X y k = .error e) ∧
    (nSamples X = 1 → stir_distance_matrix X = .ok [[0]]) := by
  rcases X with _ | ⟨r, t⟩
  · refine ⟨⟨.zeroSizeReduction, rfl⟩, ?_⟩
    intro h1
    simp [nSamples] at h1
  · have ht : t = [] := by
      rcases t with _ | ⟨a, u⟩
      · rfl
      · simp [nSamples] at hn
    subst ht
    have hsingle : nSamples [r] = 1 := rfl
    have hhits : allHits [r] y k = [] := by
      simp [allHits, nSamples, kNearestHits, nearestHits, nearestMatrix,
        stir_nearest, List.insertionSort, List.orderedInsert, refLabel]
    constructor
    · refine ⟨.stackMismatch, ?_⟩
      have hfn : stir_find_neighbors [r] y k = .error .stackMismatch := by
        unfold stir_find_neighbors
        rw [stir_distance_matrix_ok (by simp [nSamples])]
        have hcond : ¬((allHits [r] y k).length =
            (hitIndexes [r] k).length ∧
            (allMisses [r] y k).length = (hitIndexes [r] k).length) := by
          rw [hhits, length_hitIndexes, hsingle]
          intro hand
          have := hand.1
          simp only [List.length_nil, Nat.one_mul] at this
          omega
        simp only [bind, Except.bind, if_neg hcond]
      unfold stir_fit
      rw [hfn]
      rfl
    · intro _
      rw [stir_distance_matrix_ok (by simp [nSamples])]
      have hr1 : List.range 1 = [0] := rfl
      have hrow : distRow [r] 0 = [0] := by
        unfold distRow
        rw [hsingle, hr1, List.map_cons, List.map_nil, sqDist_self]
      rw [hsingle, hr1, List.map_cons, List.map_nil, hrow]

/-- C9: the epsilon-substituted range vector recomputed in `fit` equals,
    entry for entry, the one used for normalisation in
    `distance_matrix` (the code recomputes the same expression from the
    same `X`, so the values coincide). -/
theorem claim9_range_vector_reuse (X : Mat) :
    fitRangeVec X = distRangeVec X ∧
    ∀ f, (fitRangeVec X).getD f 0 = (distRangeVec X).getD f 0 :=
  ⟨rfl, fun _ => rfl⟩

/-- C10: whenever `fit` succeeds, `fit_transform` returns exactly the
    matrix `transform` produces on the freshly fitted model, and leaves
    the model in that same fitted state. -/
theorem claim10_fit_transform (st : STIRState) (X : Mat) (y : List ℤ)
    (k : ℕ) (st' : STIRState) (hfit : stir_fit st X y k = .ok st') :
    ∃ M, stir_transform st' X = .ok M ∧
      stir_fit_transform st X y k = .ok (st', M) := by
  have hinv := stir_fit_inv hfit
  refine ⟨X.map (fun row =>
      (stir_selected X y k st.n_features_to_keep).map
        (fun j => row.getD j 0)), ?_, ?_⟩
  · unfold stir_transform
    rw [hinv.2.1]
  · unfold stir_fit_transform
    rw [hfit]
    simp only [bind, Except.bind]
    unfold stir_transform
    rw [hinv.2.1]

/-! ### Concrete evaluations shared by counterexamples and witnesses -/

theorem scores_example :
    stir_feature_scores [[0,0],[1,1],[2,2],[3,3]] [0,0,1,1] 1 =
      [125/3, 125/3] := by
  norm_num [stir_feature_scores, stir_weights, muHit, muMiss, hitPairs,
    missPairs, hitIndexes, allHits, allMisses, kNearestHits, kNearestMisses,
    nearestHits, nearestMisses, nearestMatrix, refLabel, stir_nearest, lexLe,
    List.insertionSort, List.orderedInsert, distRow, sqDist, scaledVal,
    distRangeVec, fitRangeVec, substEps, epsRange, max_diff_vec, colMax,
    colMin, colList, listMax, listMin, Xval, oneOverRange, nSamples,
    nFeatures, List.range_succ]

theorem selected_example :
    stir_selected [[0,0],[1,1],[2,2],[3,3]] [0,0,1,1] 1 10 = [1, 0] := by
  norm_num [stir_selected, scores_example, generate_features, lexLe,
    List.insertionSort, List.orderedInsert, nFeatures, List.range_succ]

/-- The two columns of this input are identical, so both features receive
    the same score; the `[::-1]` ranking then lists feature 1 before
    feature 0. -/
theorem fit_example :
    stir_fit (STIR_init 10) [[0,0],[1,1],[2,2],[3,3]] [0,0,1,1] 1 =
      .ok ⟨10, some [125/3, 125/3], none, some [1, 0]⟩ := by
  have h := @stir_fit_ok (STIR_init 10) [[0,0],[1,1],[2,2],[3,3]]
    [0,0,1,1] 1 (by decide) (by decide) (by decide)
  rw [h]
  simp only [STIR_init]
  rw [scores_example, selected_example]

/-! ### Counterexamples -/

/-- C2 counterexample: on duplicate rows the claim fails even though each
    class has `k + 1 = 2` members.  For sample `i = 1` (a duplicate of
    row 0 with a different label), the "hit" list is `[2]` — but
    `y[2] = 0 ≠ 1 = y[1]` — and the "miss" list is `[1]`, i.e. it
    contains sample 1 itself. -/
theorem claim2_counterexample :
    classSizeOK [[0],[0],[1],[2]] [0,1,0,1] 1 ∧
    kNearestHits [[0],[0],[1],[2]] [0,1,0,1] 1 1 = [2] ∧
    ([0,1,0,1] : List ℤ).getD 2 0 ≠ ([0,1,0,1] : List ℤ).getD 1 0 ∧
    kNearestMisses [[0],[0],[1],[2]] [0,1,0,1] 1 1 = [1] := by
  refine ⟨by decide, ?_, by decide, ?_⟩
  · norm_num [kNearestHits, nearestHits, nearestMatrix, refLabel,
      stir_nearest, lexLe, List.insertionSort, List.orderedInsert, distRow,
      sqDist, scaledVal, distRangeVec, substEps, epsRange, max_diff_vec,
      colMax, colMin, colList, listMax, listMin, Xval, nSamples, nFeatures,
      List.range_succ]
  · norm_num [kNearestMisses, nearestMisses, nearestMatrix, refLabel,
      stir_nearest, lexLe, List.insertionSort, List.orderedInsert, distRow,
      sqDist, scaledVal, distRangeVec, substEps, epsRange, max_diff_vec,
      colMax, colMin, colList, listMax, listMin, Xval, nSamples, nFeatures,
      List.range_succ]

/-- C3 counterexample: both features of this input score `125/3`, yet the
    selection is `[1, 0]` — equal-score features appear in DESCENDING
    index order, so the claimed ascending tie-break fails. -/
theorem claim3_counterexample :
    stir_fit (STIR_init 10) [[0,0],[1,1],[2,2],[3,3]] [0,0,1,1] 1 =
      .ok ⟨10, some [125/3, 125/3], none, some [1, 0]⟩ ∧
    ¬ List.Pairwise (fun a b =>
      (stir_feature_scores [[0,0],[1,1],[2,2],[3,3]] [0,0,1,1] 1).getD a 0 >
        (stir_feature_scores [[0,0],[1,1],[2,2],[3,3]] [0,0,1,1] 1).getD b 0 ∨
      ((stir_feature_scores [[0,0],[1,1],[2,2],[3,3]] [0,0,1,1] 1).getD a 0 =
        (stir_feature_scores [[0,0],[1,1],[2,2],[3,3]] [0,0,1,1] 1).getD b 0 ∧
        a < b)) [1, 0] := by
  refine ⟨fit_example, ?_⟩
  intro hp
  have h01 := (List.pairwise_cons.mp hp).1 0 (by simp)
  rw [scores_example] at h01
  norm_num at h01

/-- C5 counterexample: with a duplicate row (`X = [[0],[0]]`), the sort
    for sample 1 starts with sample 0, not with sample 1 itself. -/
theorem claim5_counterexample :
    stir_nearest [[0],[0]] 1 = [0, 1] ∧
    (stir_nearest [[0],[0]] 1).headD 0 ≠ 1 := by
  have h : stir_nearest [[0],[0]] 1 = [0, 1] := by
    norm_num [stir_nearest, lexLe, List.insertionSort, List.orderedInsert,
      distRow, sqDist, scaledVal, distRangeVec, substEps, epsRange,
      max_diff_vec, colMax, colMin, colList, listMax, listMin, Xval,
      nSamples, nFeatures, List.range_succ]
  refine ⟨h, ?_⟩
  rw [h]
  decide

/-- C7 counterexample: `transform` on a freshly constructed model fails
    with an `AttributeError` on the missing `selected_features` attribute
    — a crash on a missing attribute, not a "model not fitted" error. -/
theorem claim7_counterexample :
    stir_transform (STIR_init 10) [[1,2],[3,4]] =
      .error (.attributeError "selected_features") := rfl

/-- C8 counterexample: on the single-sample input `[[5]]`, the degenerate
    1×1 distance matrix IS built, and `fit` then fails with the generic
    column-stack length-mismatch error, not an explicit "insufficient
    samples" error. -/
theorem claim8_counterexample :
    stir_distance_matrix [[5]] = .ok [[0]] ∧
    stir_fit (STIR_init 10) [[5]] [1] 1 = .error .stackMismatch := by
  constructor
  · norm_num [stir_distance_matrix, stir_max_diff, bind, Except.bind,
      distRow, sqDist, scaledVal, distRangeVec, substEps, epsRange,
      max_diff_vec, colMax, colMin, colList, listMax, listMin, Xval,
      nSamples, nFeatures, List.range_succ]
  · rfl

/-! ### Witnesses -/

/-- Witness for C1 at a concrete input satisfying the neighbour
    precondition. -/
theorem claim1_witness :
    (0 < nSamples [[0,0],[1,1],[2,2],[3,3]] ∧
     classSizeOK [[0,0],[1,1],[2,2],[3,3]] [0,0,1,1] 1 ∧
     missPoolOK [[0,0],[1,1],[2,2],[3,3]] [0,0,1,1] 1 ∧
     0 < nFeatures [[0,0],[1,1],[2,2],[3,3]]) ∧
    (∃ st', stir_fit (STIR_init 10) [[0,0],[1,1],[2,2],[3,3]] [0,0,1,1] 1 =
        .ok st' ∧
      st'.feature_scores =
        some (stir_feature_scores [[0,0],[1,1],[2,2],[3,3]] [0,0,1,1] 1) ∧
      (stir_feature_scores [[0,0],[1,1],[2,2],[3,3]] [0,0,1,1] 1).getD 0 0 =
        specScore [[0,0],[1,1],[2,2],[3,3]] [0,0,1,1] 1 0) :=
  ⟨⟨by decide, by decide, by decide, by decide⟩,
   claim1_fit_scores_formula (STIR_init 10) [[0,0],[1,1],[2,2],[3,3]]
     [0,0,1,1] 1 0 (by decide) (by decide) (by decide) (by decide)⟩

/-- The rows of the C2 witness input are pairwise distinct, so no earlier
    sample is at distance zero from sample 1. -/
theorem hdup_example : ∀ j, j < 1 → sqDist [[0],[1],[2],[3]] 1 j ≠ 0 := by
  intro j hj
  interval_cases j
  norm_num [sqDist, scaledVal, distRangeVec, substEps, epsRange,
    max_diff_vec, colMax, colMin, colList, listMax, listMin, Xval,
    nSamples, nFeatures, List.range_succ]

/-- Witness for C2 at a concrete input with pairwise-distinct rows and
    both classes of size `k + 1 = 2`. -/
theorem claim2_witness :
    (classSizeOK [[0],[1],[2],[3]] [0,1,0,1] 1 ∧
     1 < nSamples [[0],[1],[2],[3]] ∧
     (∀ j, j < 1 → sqDist [[0],[1],[2],[3]] 1 j ≠ 0)) ∧
    ((∀ h ∈ kNearestHits [[0],[1],[2],[3]] [0,1,0,1] 1 1,
        ([0,1,0,1] : List ℤ).getD h 0 = ([0,1,0,1] : List ℤ).getD 1 0 ∧
        h ≠ 1) ∧
     (∀ m ∈ kNearestMisses [[0],[1],[2],[3]] [0,1,0,1] 1 1,
        ([0,1,0,1] : List ℤ).getD m 0 ≠ ([0,1,0,1] : List ℤ).getD 1 0 ∧
        m ≠ 1) ∧
     (∀ h ∈ kNearestHits [[0],[1],[2],[3]] [0,1,0,1] 1 1,
        h ∉ kNearestMisses [[0],[1],[2],[3]] [0,1,0,1] 1 1)) :=
  ⟨⟨by decide, by decide, hdup_example⟩,
   claim2_neighbor_invariants [[0],[1],[2],[3]] [0,1,0,1] 1 1 (by decide)
     (by decide) hdup_example⟩

/-- Witness for C3: the amended ordering holds on the concrete fitted
    selection `[1, 0]`. -/
theorem claim3_witness :
    stir_fit (STIR_init 10) [[0,0],[1,1],[2,2],[3,3]] [0,0,1,1] 1 =
      .ok ⟨10, some [125/3, 125/3], none, some [1, 0]⟩ ∧
    List.Pairwise (fun a b =>
      (stir_feature_scores [[0,0],[1,1],[2,2],[3,3]] [0,0,1,1] 1).getD a 0 >
        (stir_feature_scores [[0,0],[1,1],[2,2],[3,3]] [0,0,1,1] 1).getD b 0 ∨
      ((stir_feature_scores [[0,0],[1,1],[2,2],[3,3]] [0,0,1,1] 1).getD a 0 =
        (stir_feature_scores [[0,0],[1,1],[2,2],[3,3]] [0,0,1,1] 1).getD b 0 ∧
        a > b)) [1, 0] :=
  ⟨fit_example,
   claim3_selected_order (STIR_init 10) [[0,0],[1,1],[2,2],[3,3]] [0,0,1,1]
     1 ⟨10, some [125/3, 125/3], none, some [1, 0]⟩ [1, 0] fit_example rfl⟩

/-- Witness for C4 on the same concrete fit: 2 = min 10 2 features are
    selected and every feature occurs. -/
theorem claim4_witness :
    stir_fit (STIR_init 10) [[0,0],[1,1],[2,2],[3,3]] [0,0,1,1] 1 =
      .ok ⟨10, some [125/3, 125/3], none, some [1, 0]⟩ ∧
    (([1, 0] : List ℕ).length =
      min (STIR_init 10).n_features_to_keep
        (nFeatures [[0,0],[1,1],[2,2],[3,3]]) ∧
     (nFeatures [[0,0],[1,1],[2,2],[3,3]] ≤
        (STIR_init 10).n_features_to_keep →
      ∀ f, f < nFeatures [[0,0],[1,1],[2,2],[3,3]] → f ∈ ([1, 0] : List ℕ))) :=
  ⟨fit_example,
   claim4_selection_size (STIR_init 10) [[0,0],[1,1],[2,2],[3,3]] [0,0,1,1]
     1 ⟨10, some [125/3, 125/3], none, some [1, 0]⟩ [1, 0] fit_example rfl⟩

/-- Witness for C5 at a two-sample input. -/
theorem claim5_witness :
    1 < nSamples [[0],[1]] ∧
    (List.Pairwise (fun a b => sqDist [[0],[1]] 1 a < sqDist [[0],[1]] 1 b ∨
      (sqDist [[0],[1]] 1 a = sqDist [[0],[1]] 1 b ∧ a < b))
      (stir_nearest [[0],[1]] 1) ∧
    List.Perm (stir_nearest [[0],[1]] 1)
      (List.range (nSamples [[0],[1]])) ∧
    ((∀ j, j < 1 → sqDist [[0],[1]] 1 j ≠ 0) →
      (stir_nearest [[0],[1]] 1).headD 0 = 1)) :=
  ⟨by decide, claim5_nearest_sorted [[0],[1]] 1 (by decide)⟩

/-- Column 0 of the C6 witness input is constant. -/
theorem const_col_example :
    ∀ i, i < nSamples [[1,2],[1,3]] →
      Xval [[1,2],[1,3]] i 0 = Xval [[1,2],[1,3]] 0 0 := by
  intro i hi
  have hi2 : i < 2 := hi
  interval_cases i
  · rfl
  · rfl

/-- Witness for C6 at an input whose column 0 is constant. -/
theorem claim6_witness :
    (0 < nSamples [[1,2],[1,3]] ∧ 0 < nFeatures [[1,2],[1,3]] ∧
     (∀ i, i < nSamples [[1,2],[1,3]] →
        Xval [[1,2],[1,3]] i 0 = Xval [[1,2],[1,3]] 0 0)) ∧
    ((distRangeVec [[1,2],[1,3]]).getD 0 0 = epsRange ∧
     (∀ i, i < nSamples [[1,2],[1,3]] → scaledVal [[1,2],[1,3]] i 0 = 0) ∧
     (∀ f, f < nFeatures [[1,2],[1,3]] →
        (distRangeVec [[1,2],[1,3]]).getD f 0 ≠ 0) ∧
     (nSamples [[1,2],[1,3]] : ℚ) ≠ 0) :=
  ⟨⟨by decide, by decide, const_col_example⟩,
   claim6_constant_feature [[1,2],[1,3]] 0 (by decide) (by decide)
     const_col_example⟩

/-- Witness for C8 at the single-sample input `[[5]]`. -/
theorem claim8_witness :
    (1 ≤ 1 ∧ nSamples [[5]] ≤ 1) ∧
    ((∃ e, stir_fit (STIR_init 10) [[5]] [1] 1 = .error e) ∧
     (nSamples [[5]] = 1 → stir_distance_matrix [[5]] = .ok [[0]])) :=
  ⟨⟨by decide, by decide⟩,
   claim8_fit_small_input (STIR_init 10) [[5]] [1] 1 (by decide) (by decide)⟩

/-- Witness for C10 on the concrete successful fit. -/
theorem claim10_witness :
    stir_fit (STIR_init 10) [[0,0],[1,1],[2,2],[3,3]] [0,0,1,1] 1 =
      .ok ⟨10, some [125/3, 125/3], none, some [1, 0]⟩ ∧
    (∃ M, stir_transform ⟨10, some [125/3, 125/3], none, some [1, 0]⟩
        [[0,0],[1,1],[2,2],[3,3]] = .ok M ∧
      stir_fit_transform (STIR_init 10) [[0,0],[1,1],[2,2],[3,3]] [0,0,1,1]
        1 = .ok (⟨10, some [125/3, 125/3], none, some [1, 0]⟩, M)) :=
  ⟨fit_example,
   claim10_fit_transform (STIR_init 10) [[0,0],[1,1],[2,2],[3,3]] [0,0,1,1]
     1 ⟨10, some [125/3, 125/3], none, some [1, 0]⟩ fit_example⟩

end STIRModel
